import Mathlib

/-!
Shallow embedding of the page-order parsing and PDF assembly engine of the
`pdf_merge_page_reorder` repository (`src/helpers.py` and `src/app.py`).

Strings are modelled as `List Char`; page dimensions (floats in the source,
"real-valued" per the design notes) are modelled as `ℚ`; the distinct
failure sites (`raise ValueError`/`raise gr.Error`) are modelled as
structured error inductives; the `gr.Warning` + `return None` branch of
`build_pdf_from_order` is the `BuildResult.emptyOutput` constructor.
-/

namespace PdfMerge

/-- The separator class of `SEP_RE = re.compile(r"[ ,;]+")`.
`re.split` on a one-or-more character class, followed by the source's
`if not part: continue`, is equivalent to splitting at every separator
character and skipping empty chunks, which is how the parsers below use it. -/
def isSep (c : Char) : Bool := c == ' ' || c == ',' || c == ';'

/-- Python `str.strip()` whitespace set (ASCII part). -/
def isPySpace (c : Char) : Bool :=
  c == ' ' || c == '\t' || c == '\n' || c == '\r' || c == '\x0b' || c == '\x0c'

/-- Python `s.strip()`: drop leading and trailing whitespace. -/
def pyStrip (s : List Char) : List Char :=
  ((s.dropWhile isPySpace).reverse.dropWhile isPySpace).reverse

/-- Python `int(...)` on a string of ASCII digits. -/
def natOfDigits (ds : List Char) : Nat :=
  ds.foldl (fun n c => 10 * n + (c.toNat - 48)) 0

/-- The nonempty chunks `parse_ranges` / `parse_final_order` iterate over:
`SEP_RE.split(s.strip())` with empty parts skipped. -/
def tokens (s : List Char) : List (List Char) :=
  ((pyStrip s).splitOnP isSep).filter (fun t => !t.isEmpty)

/-- The two `raise ValueError` sites of `helpers.py`, with the offending token. -/
inductive ParseErr where
  | invalidRangeToken (tok : List Char)
  | invalidOrderToken (tok : List Char)
deriving DecidableEq

/-- `RANGE_RE.fullmatch(part)` for `RANGE_RE = (\d+)-(\d+)`: the token is two
nonempty digit runs joined by a single dash.  A full match of this regex is
exactly: `splitOn '-'` yields two chunks, both nonempty and all digits. -/
def matchSpan (part : List Char) : Option (Nat × Nat) :=
  match part.splitOn '-' with
  | [a, b] =>
    if !a.isEmpty && !b.isEmpty && a.all Char.isDigit && b.all Char.isDigit then
      some (natOfDigits a, natOfDigits b)
    else none
  | _ => none

/-- One iteration of the `parse_ranges` loop body on a nonempty part:
span (with `if s > e: s, e = e, s` swap) via `range(s, e + 1)`, else
`part.isdigit()`, else `ValueError`. -/
def parseRangeToken (part : List Char) : Except ParseErr (List Nat) :=
  match matchSpan part with
  | some (s, e) =>
    let p := if s > e then (e, s) else (s, e)
    .ok (List.range' p.1 (p.2 + 1 - p.1))
  | none =>
    if !part.isEmpty && part.all Char.isDigit then .ok [natOfDigits part]
    else .error (.invalidRangeToken part)

/-- The shared loop shape of both parsers: iterate over the split parts,
skip empty ones (`if not part: continue`), process each with `f`,
propagating the first raised error, concatenating nothing yet
(the caller flattens). -/
def collectParts (f : List Char → Except ParseErr (List α)) :
    List (List Char) → Except ParseErr (List (List α))
  | [] => .ok []
  | part :: ps =>
    if part.isEmpty then collectParts f ps
    else
      match f part with
      | .error e => .error e
      | .ok c =>
        match collectParts f ps with
        | .error e => .error e
        | .ok cs => .ok (c :: cs)

/-- `helpers.parse_ranges`: early return on empty input, split the stripped
input, process each part, and return `sorted(list(set(pages)))`. -/
def parse_ranges (rng : List Char) : Except ParseErr (List Nat) :=
  if rng.isEmpty then .ok []
  else
    match collectParts parseRangeToken ((pyStrip rng).splitOnP isSep) with
    | .error e => .error e
    | .ok chunks => .ok (List.insertionSort (· ≤ ·) chunks.flatten.dedup)

/-- The numeric part (group 2) of `PAGE_RE`: `[0-9]+(?:-[0-9]+)?`. -/
inductive NumSpec where
  | single (n : Nat)
  | span (s e : Nat)
deriving DecidableEq

/-- Full match of `[0-9]+(?:-[0-9]+)?` against a chunk. -/
def matchNumSpec (spec : List Char) : Option NumSpec :=
  match matchSpan spec with
  | some (s, e) => some (.span s e)
  | none =>
    if !spec.isEmpty && spec.all Char.isDigit then some (.single (natOfDigits spec))
    else none

/-- The optional-colon part `[:]?` of `PAGE_RE`: a leading colon, if present,
is consumed (the rest must then match the numeric spec). -/
def stripColon (rest : List Char) : List Char :=
  match rest with
  | ':' :: r => r
  | r => r

/-- `PAGE_RE.fullmatch(token)` for `PAGE_RE = ([AB])[:]?([0-9]+(?:-[0-9]+)?)`
with `re.I`: a leading tag letter among A/a/B/b, an optional colon, then the
numeric spec, consuming the whole token.  Returns the tag as written and the
parsed numeric spec. -/
def matchPageToken (tok : List Char) : Option (Char × NumSpec) :=
  match tok with
  | [] => none
  | c :: rest =>
    if c == 'A' || c == 'a' || c == 'B' || c == 'b' then
      match matchNumSpec (stripColon rest) with
      | some ns => some (c, ns)
      | none => none
    else none

/-- One iteration of the `parse_final_order` loop body on a nonempty token:
regex match, `src = src.upper()`, then either the swap-normalized expansion
`[(src, p) for p in range(s, e + 1)]` or the single `(src, int(spec))`. -/
def parseOrderToken (tok : List Char) : Except ParseErr (List (Char × Nat)) :=
  match matchPageToken tok with
  | none => .error (.invalidOrderToken tok)
  | some (c, .single n) => .ok [(c.toUpper, n)]
  | some (c, .span s e) =>
    let p := if s > e then (e, s) else (s, e)
    .ok ((List.range' p.1 (p.2 + 1 - p.1)).map (fun n => (c.toUpper, n)))

/-- `helpers.parse_final_order`: split the stripped input, process each
token, concatenate the expansions in token order. -/
def parse_final_order (order_str : List Char) :
    Except ParseErr (List (Char × Nat)) :=
  match collectParts parseOrderToken ((pyStrip order_str).splitOnP isSep) with
  | .error e => .error e
  | .ok chunks => .ok chunks.flatten

/-- A source page: its mediabox geometry (floats in the source, modelled as
`ℚ`) and an opaque content identifier distinguishing page objects. -/
structure Page where
  width : ℚ
  height : ℚ
  content : Nat
deriving DecidableEq

/-- One `merge_page` call onto a composed page: the source page and the
translation `(tx, ty)` it lands at.  pypdf's `merge_page(page2, expand,
over)` applies no translation, so every merge the source performs lands at
the origin `(0, 0)`. -/
structure Placement where
  page : Page
  tx : ℚ
  ty : ℚ
deriving DecidableEq

/-- A page of the output document: either a source page added unchanged
(`writer.add_page(page)`), or a blank page of the computed dimensions with
source pages merged onto it. -/
inductive OutputPage where
  | pass (p : Page)
  | comp (width height : ℚ) (placements : List Placement)
deriving DecidableEq

/-- The 2-Up pair composition of `build_pdf_from_order`:
`combined_height = max(p1_height, p2_height)`,
`combined_width = p1_width + p2_width`,
`new_page.merge_page(p1)` then `new_page.merge_page(p2, (p1_width, 0))`.
pypdf's `merge_page(page2, expand=False, over=True)` takes no translation
argument, so the tuple `(p1_width, 0)` binds to the boolean `expand`
parameter (truthy) and `p2` is merged untranslated at the origin,
overlapping `p1`; the expand step changes nothing because the blank canvas
already covers `p2`'s box.  Both placements therefore land at `(0, 0)`. -/
def compose2 (p1 p2 : Page) : OutputPage :=
  .comp (p1.width + p2.width) (max p1.height p2.height)
    [⟨p1, 0, 0⟩, ⟨p2, 0, 0⟩]

/-- The `for i in range(0, len(all_pages), 2)` loop of the 2-Up branch:
consecutive pages are paired; a final unpaired page is added alone. -/
def layoutTwoUp : List Page → List OutputPage
  | [] => []
  | [p1] => [.pass p1]
  | p1 :: p2 :: rest => compose2 p1 p2 :: layoutTwoUp rest

/-- The distinct `raise gr.Error` sites of `build_pdf_from_order`. -/
inductive BuildError where
  | emptyOrder
  | invalidOrder (e : ParseErr)
  | missingSource (src : Char)
  | pageOutOfRange (src : Char) (page : Nat)
deriving DecidableEq

/-- The three outcome classes of `build_pdf_from_order`: a `raise gr.Error`,
the `gr.Warning("No pages were added...")` + `return None` branch, or a
written document (its pages and the filename used for the temp file). -/
inductive BuildResult where
  | err (e : BuildError)
  | emptyOutput
  | output (pages : List OutputPage) (filename : List Char)
deriving DecidableEq

/-- The `pdf_paths = {"A": ..., "B": ...}` dictionary with `dict.get`:
an absent upload is `none`. -/
def sourceDoc (pdf_a pdf_b : Option (List Page)) (src : Char) :
    Option (List Page) :=
  if src = 'A' then pdf_a else if src = 'B' then pdf_b else none

/-- The resolution loop of `build_pdf_from_order`: for each `(src, page)`
in order, a missing source raises first, then `if not 0 < page <= len(pages)`
raises, else `pages[page - 1]` is taken.  (The source's lazily-filled
`readers` cache always yields the same reader for a given tag, so looking
the document up at every token is equivalent.) -/
def resolvePages (pdf_a pdf_b : Option (List Page)) :
    List (Char × Nat) → Except BuildError (List Page)
  | [] => .ok []
  | (src, page) :: rest =>
    match sourceDoc pdf_a pdf_b src with
    | none => .error (.missingSource src)
    | some doc =>
      if h : 0 < page ∧ page ≤ doc.length then
        match resolvePages pdf_a pdf_b rest with
        | .error e => .error e
        | .ok ps => .ok (doc.get ⟨page - 1, by omega⟩ :: ps)
      else .error (.pageOutOfRange src page)

/-- Python `s.lower()` (ASCII). -/
def pyLower (s : List Char) : List Char := s.map Char.toLower

/-- Python `s.endswith(".pdf")`. -/
def endsWithPdf (s : List Char) : Bool :=
  decide (4 ≤ s.length) && s.drop (s.length - 4) == ['.', 'p', 'd', 'f']

/-- `if not output_filename.lower().endswith(".pdf"): output_filename += ".pdf"`. -/
def withPdfExt (name : List Char) : List Char :=
  if endsWithPdf (pyLower name) then name else name ++ ['.', 'p', 'd', 'f']

/-- The two values of the `layout` radio component. -/
inductive Layout where
  | sequential
  | twoUp
deriving DecidableEq

/-- `app.build_pdf_from_order` (dropping the I/O of actually writing the
temp file): reject a whitespace-only order string, parse it, resolve every
token (raising at the first bad one), take the `return None` branch when no
pages were added, otherwise lay the resolved pages out — sequentially, or
with the 2-Up pairing (whose second resolution pass over `page_spec`
revisits exactly the tokens the first pass already validated, producing the
same page list) — and write under the extension-normalized filename. -/
def build_pdf_from_order (pdf_a pdf_b : Option (List Page))
    (order_str : List Char) (layout : Layout) (output_filename : List Char) :
    BuildResult :=
  if (pyStrip order_str).isEmpty then .err .emptyOrder
  else
    match parse_final_order order_str with
    | .error e => .err (.invalidOrder e)
    | .ok page_spec =>
      match resolvePages pdf_a pdf_b page_spec with
      | .error e => .err e
      | .ok pages =>
        if pages.isEmpty then .emptyOutput
        else
          let outPages := match layout with
            | .sequential => pages.map OutputPage.pass
            | .twoUp => layoutTwoUp pages
          .output outPages (withPdfExt output_filename)

/-- The per-token success condition of the resolution loop: the token's tag
has an uploaded document and its page is within `[1, len(reader.pages)]`. -/
def tokOk (pdf_a pdf_b : Option (List Page)) (t : Char × Nat) : Bool :=
  match sourceDoc pdf_a pdf_b t.1 with
  | none => false
  | some d => decide (0 < t.2) && decide (t.2 ≤ d.length)

/-- The error the resolution loop raises at a failing token: a missing
source is detected before the page bound is checked. -/
def tokErr (pdf_a pdf_b : Option (List Page)) (t : Char × Nat) : BuildError :=
  match sourceDoc pdf_a pdf_b t.1 with
  | none => .missingSource t.1
  | some _ => .pageOutOfRange t.1 t.2

/-- `p` is the page a resolved token `t` refers to: page `t.2` (1-based) of
the document uploaded for tag `t.1`. -/
def refersTo (pdf_a pdf_b : Option (List Page)) (t : Char × Nat) (p : Page) :
    Prop :=
  ∃ d, sourceDoc pdf_a pdf_b t.1 = some d ∧
    ∃ h : t.2 - 1 < d.length, p = d.get ⟨t.2 - 1, h⟩

/-- A concrete five-page document for source A. -/
def docA5 : List Page :=
  [⟨10, 20, 1⟩, ⟨10, 20, 2⟩, ⟨10, 20, 3⟩, ⟨10, 20, 4⟩, ⟨10, 20, 5⟩]

/-- A concrete five-page document for source B. -/
def docB5 : List Page :=
  [⟨30, 40, 11⟩, ⟨30, 40, 12⟩, ⟨30, 40, 13⟩, ⟨30, 40, 14⟩, ⟨30, 40, 15⟩]

/-- A concrete four-page document of 100×200 pages (the spec's 2-Up
example). -/
def docQuad : List Page :=
  [⟨100, 200, 1⟩, ⟨100, 200, 2⟩, ⟨100, 200, 3⟩, ⟨100, 200, 4⟩]

/-! ## Helper lemmas -/

/-- A successful `collectParts` run processed exactly the nonempty parts,
in order, each to its own chunk. -/
theorem collectParts_ok_forall₂ {α : Type} (f : List Char → Except ParseErr (List α)) :
    ∀ parts chunks, collectParts f parts = .ok chunks →
      List.Forall₂ (fun t c => f t = .ok c) (parts.filter (fun t => !t.isEmpty)) chunks
  | [], chunks, h => by
    simp [collectParts] at h
    subst h
    simp
  | part :: ps, chunks, h => by
    by_cases hp : part.isEmpty
    · simp [collectParts, hp] at h
      simpa [hp] using collectParts_ok_forall₂ f ps chunks h
    · simp only [collectParts, hp, if_neg, Bool.false_eq_true, not_false_iff, if_false] at h
      cases hf : f part with
      | error e => simp [hf] at h
      | ok c =>
        simp only [hf] at h
        cases hrest : collectParts f ps with
        | error e => simp [hrest] at h
        | ok cs =>
          simp only [hrest] at h
          cases h
          have hgoal : List.filter (fun t => !t.isEmpty) (part :: ps) =
              part :: List.filter (fun t => !t.isEmpty) ps := by simp [hp]
          rw [hgoal]
          exact List.Forall₂.cons hf (collectParts_ok_forall₂ f ps cs hrest)

/-- Every right-hand element of a `Forall₂` is related to some left-hand one. -/
theorem forall₂_exists_left {α β : Type} {R : α → β → Prop} :
    ∀ {as : List α} {bs : List β}, List.Forall₂ R as bs → ∀ b ∈ bs, ∃ a ∈ as, R a b := by
  intro as bs h
  induction h with
  | nil => intro b hb; cases hb
  | cons hR _ ih =>
    intro b hb
    rcases List.mem_cons.1 hb with rfl | hb
    · exact ⟨_, List.mem_cons_self _ _, hR⟩
    · rcases ih b hb with ⟨a, ha, hab⟩
      exact ⟨a, List.mem_cons_of_mem _ ha, hab⟩

/-- The `if s > e: s, e = e, s` swap produces `(min, max)`. -/
theorem swap_min_max (s e : Nat) :
    (if s > e then (e, s) else (s, e)) = (min s e, max s e) := by
  split <;> simp [Prod.mk.injEq] <;> omega

/-- A digit character is not a dash. -/
theorem digit_not_dash {c : Char} (h : c.isDigit = true) : ¬((c == '-') = true) := by
  intro hc
  rw [beq_iff_eq] at hc
  subst hc
  exact absurd h (by decide)

/-- Splitting `ds1 ++ '-' :: ds2` on `'-'` recovers the two digit runs. -/
theorem splitOn_dash_append {ds1 ds2 : List Char}
    (h1d : ds1.all Char.isDigit = true) (h2d : ds2.all Char.isDigit = true) :
    (ds1 ++ '-' :: ds2).splitOn '-' = [ds1, ds2] := by
  have hno1 : ∀ x ∈ ds1, ¬((x == '-') = true) := fun x hx =>
    digit_not_dash (List.all_eq_true.1 h1d x hx)
  have hno2 : ∀ x ∈ ds2, ¬((x == '-') = true) := fun x hx =>
    digit_not_dash (List.all_eq_true.1 h2d x hx)
  show (ds1 ++ '-' :: ds2).splitOnP (fun x => x == '-') = [ds1, ds2]
  have hA : (ds1 ++ '-' :: ds2).splitOnP (fun x => x == '-') =
      ds1 :: ds2.splitOnP (fun x => x == '-') :=
    List.splitOnP_first _ ds1 hno1 '-' (by simp) ds2
  have hB : ds2.splitOnP (fun x => x == '-') = [ds2] :=
    List.splitOnP_eq_single _ ds2 hno2
  rw [hA, hB]

/-- A run of digits is a single `splitOn '-'` chunk. -/
theorem splitOn_dash_digits {ds : List Char} (hd : ds.all Char.isDigit = true) :
    ds.splitOn '-' = [ds] := by
  have hno : ∀ x ∈ ds, ¬((x == '-') = true) := fun x hx =>
    digit_not_dash (List.all_eq_true.1 hd x hx)
  have hB : ds.splitOnP (fun x => x == '-') = [ds] :=
    List.splitOnP_eq_single _ ds hno
  exact hB

/-- `matchSpan` on a well-formed span token. -/
theorem matchSpan_append {ds1 ds2 : List Char}
    (h1 : ¬ds1.isEmpty = true) (h1d : ds1.all Char.isDigit = true)
    (h2 : ¬ds2.isEmpty = true) (h2d : ds2.all Char.isDigit = true) :
    matchSpan (ds1 ++ '-' :: ds2) = some (natOfDigits ds1, natOfDigits ds2) := by
  unfold matchSpan
  rw [splitOn_dash_append h1d h2d]
  simp [h1, h2, h1d, h2d]

/-- `matchSpan` rejects a pure digit run (no dash present). -/
theorem matchSpan_digits {ds : List Char} (hd : ds.all Char.isDigit = true) :
    matchSpan ds = none := by
  unfold matchSpan
  rw [splitOn_dash_digits hd]

/-- `parseRangeToken` on a well-formed span token: the swap-normalized
ascending run from `min` to `max`. -/
theorem parseRangeToken_span {ds1 ds2 : List Char}
    (h1 : ¬ds1.isEmpty = true) (h1d : ds1.all Char.isDigit = true)
    (h2 : ¬ds2.isEmpty = true) (h2d : ds2.all Char.isDigit = true) :
    parseRangeToken (ds1 ++ '-' :: ds2) =
      .ok (List.range' (min (natOfDigits ds1) (natOfDigits ds2))
        (max (natOfDigits ds1) (natOfDigits ds2) + 1 -
          min (natOfDigits ds1) (natOfDigits ds2))) := by
  unfold parseRangeToken
  rw [matchSpan_append h1 h1d h2 h2d]
  simp only [swap_min_max]

/-- `stripColon` leaves a chunk alone when its head is not a colon. -/
theorem stripColon_cons {d : Char} {rest : List Char} (h : ¬d = ':') :
    stripColon (d :: rest) = d :: rest := by
  unfold stripColon
  split
  · rename_i r heq
    injection heq with h1 h2
    exact absurd h1 h
  · rfl

/-- `stripColon` leaves a digit run alone. -/
theorem stripColon_digits {ds : List Char} (h : ¬ds.isEmpty = true)
    (hd : ds.all Char.isDigit = true) : stripColon ds = ds := by
  cases ds with
  | nil => simp at h
  | cons d t =>
    have hdd : d.isDigit = true := List.all_eq_true.1 hd d (by simp)
    exact stripColon_cons (fun hcol => absurd hdd (by rw [hcol]; decide))

/-- `stripColon` leaves a digit-headed span chunk alone. -/
theorem stripColon_span {ds1 ds2 : List Char} (h : ¬ds1.isEmpty = true)
    (hd : ds1.all Char.isDigit = true) :
    stripColon (ds1 ++ '-' :: ds2) = ds1 ++ '-' :: ds2 := by
  cases ds1 with
  | nil => simp at h
  | cons d t =>
    have hdd : d.isDigit = true := List.all_eq_true.1 hd d (by simp)
    exact stripColon_cons (fun hcol => absurd hdd (by rw [hcol]; decide))

/-- `matchNumSpec` on a well-formed span chunk. -/
theorem matchNumSpec_span {ds1 ds2 : List Char}
    (h1 : ¬ds1.isEmpty = true) (h1d : ds1.all Char.isDigit = true)
    (h2 : ¬ds2.isEmpty = true) (h2d : ds2.all Char.isDigit = true) :
    matchNumSpec (ds1 ++ '-' :: ds2) =
      some (.span (natOfDigits ds1) (natOfDigits ds2)) := by
  unfold matchNumSpec
  rw [matchSpan_append h1 h1d h2 h2d]

/-- `matchNumSpec` on a digit run. -/
theorem matchNumSpec_digits {ds : List Char} (h : ¬ds.isEmpty = true)
    (hd : ds.all Char.isDigit = true) :
    matchNumSpec ds = some (.single (natOfDigits ds)) := by
  unfold matchNumSpec
  rw [matchSpan_digits hd]
  simp [h, hd]

/-- `matchPageToken` after an accepted tag letter. -/
theorem matchPageToken_eq {c : Char} {rest : List Char}
    (hc : (c == 'A' || c == 'a' || c == 'B' || c == 'b') = true) :
    matchPageToken (c :: rest) =
      match matchNumSpec (stripColon rest) with
      | some ns => some (c, ns)
      | none => none := by
  simp only [matchPageToken]
  rw [if_pos hc]

/-- `parseOrderToken` on a well-formed span token: the swap-normalized
expansion, tagged with the uppercased source letter. -/
theorem parseOrderToken_span {c : Char} {ds1 ds2 : List Char}
    (hc : (c == 'A' || c == 'a' || c == 'B' || c == 'b') = true)
    (h1 : ¬ds1.isEmpty = true) (h1d : ds1.all Char.isDigit = true)
    (h2 : ¬ds2.isEmpty = true) (h2d : ds2.all Char.isDigit = true) :
    parseOrderToken (c :: (ds1 ++ '-' :: ds2)) =
      .ok ((List.range' (min (natOfDigits ds1) (natOfDigits ds2))
        (max (natOfDigits ds1) (natOfDigits ds2) + 1 -
          min (natOfDigits ds1) (natOfDigits ds2))).map
        (fun n => (c.toUpper, n))) := by
  have hm : matchPageToken (c :: (ds1 ++ '-' :: ds2)) =
      some (c, .span (natOfDigits ds1) (natOfDigits ds2)) := by
    rw [matchPageToken_eq hc, stripColon_span h1 h1d,
      matchNumSpec_span h1 h1d h2 h2d]
  unfold parseOrderToken
  rw [hm]
  simp only [swap_min_max]

/-- `parseOrderToken` on a well-formed single-page token. -/
theorem parseOrderToken_single {c : Char} {ds : List Char}
    (hc : (c == 'A' || c == 'a' || c == 'B' || c == 'b') = true)
    (h : ¬ds.isEmpty = true) (hd : ds.all Char.isDigit = true) :
    parseOrderToken (c :: ds) = .ok [(c.toUpper, natOfDigits ds)] := by
  have hm : matchPageToken (c :: ds) = some (c, .single (natOfDigits ds)) := by
    rw [matchPageToken_eq hc, stripColon_digits h hd, matchNumSpec_digits h hd]
  unfold parseOrderToken
  rw [hm]

/-- A successful `matchPageToken` only ever accepted an A/B tag letter. -/
theorem matchPageToken_tag {tok : List Char} {c : Char} {ns : NumSpec}
    (h : matchPageToken tok = some (c, ns)) :
    (c == 'A' || c == 'a' || c == 'B' || c == 'b') = true := by
  cases tok with
  | nil => simp [matchPageToken] at h
  | cons c' rest =>
    by_cases hc : (c' == 'A' || c' == 'a' || c' == 'B' || c' == 'b') = true
    · rw [matchPageToken_eq hc] at h
      cases hm : matchNumSpec (stripColon rest) with
      | none => simp only [hm] at h; cases h
      | some ns' =>
        simp only [hm] at h
        cases h
        exact hc
    · simp [matchPageToken, hc] at h

/-- Every pair a successful `parseOrderToken` emits carries tag 'A' or 'B'. -/
theorem parseOrderToken_tags {tok : List Char} {chunk : List (Char × Nat)}
    (h : parseOrderToken tok = .ok chunk) :
    ∀ x ∈ chunk, x.1 = 'A' ∨ x.1 = 'B' := by
  unfold parseOrderToken at h
  cases hm : matchPageToken tok with
  | none => simp only [hm] at h; cases h
  | some cns =>
    obtain ⟨c, ns⟩ := cns
    have hc := matchPageToken_tag hm
    have hc' : c = 'A' ∨ c = 'a' ∨ c = 'B' ∨ c = 'b' := by
      simpa [beq_iff_eq, or_assoc] using hc
    cases ns with
    | single n =>
      simp only [hm] at h
      cases h
      intro x hx
      simp only [List.mem_singleton] at hx
      subst hx
      rcases hc' with rfl | rfl | rfl | rfl <;> simp
    | span s e =>
      simp only [hm] at h
      cases h
      intro x hx
      simp only [List.mem_map] at hx
      obtain ⟨n, _, rfl⟩ := hx
      rcases hc' with rfl | rfl | rfl | rfl <;> simp

/-! ## Claims -/

/-- C3: For every range text accepted without error, the list returned by
`parse_ranges` is strictly ascending with no duplicates, and every element
of the list was requested by some token of the input (as a bare integer or
as a member of a span); empty input yields an empty result. -/
theorem C3_parse_ranges_sorted_complete :
    (∀ rng l, parse_ranges rng = .ok l →
      l.Sorted (· < ·) ∧
      ∀ x ∈ l, ∃ t ∈ tokens rng, ∃ c, parseRangeToken t = .ok c ∧ x ∈ c) ∧
    parse_ranges [] = .ok [] := by
  constructor
  · intro rng l h
    unfold parse_ranges at h
    by_cases he : rng.isEmpty
    · simp [he] at h
      subst h
      simp [List.Sorted]
    · simp only [he, Bool.false_eq_true, if_false] at h
      cases hc : collectParts parseRangeToken ((pyStrip rng).splitOnP isSep) with
      | error e => simp [hc] at h
      | ok chunks =>
        simp only [hc] at h
        cases h
        constructor
        · exact List.Sorted.lt_of_le
            (List.sorted_insertionSort _ _)
            ((List.perm_insertionSort _ _).nodup_iff.2 (List.nodup_dedup _))
        · intro x hx
          have hx' : x ∈ chunks.flatten.dedup :=
            (List.perm_insertionSort _ _).mem_iff.1 hx
          have hx'' : x ∈ chunks.flatten := (List.mem_dedup).1 hx'
          rcases List.mem_flatten.1 hx'' with ⟨c, hcmem, hxc⟩
          rcases forall₂_exists_left (collectParts_ok_forall₂ _ _ _ hc) c hcmem
            with ⟨t, ht, htc⟩
          exact ⟨t, ht, c, htc, hxc⟩
  · rfl

/-- Witness for C3 at the concrete input `"1, 3-5"`, whose parse is
`[1, 3, 4, 5]`. -/
theorem C3_parse_ranges_witness :
    ([1, 3, 4, 5] : List Nat).Sorted (· < ·) ∧
    (∃ t ∈ tokens ("1, 3-5".data), ∃ c, parseRangeToken t = .ok c ∧ 4 ∈ c) := by
  have h := C3_parse_ranges_sorted_complete.1 ("1, 3-5".data) [1, 3, 4, 5] rfl
  exact ⟨h.1, h.2 4 (by decide)⟩

/-- C2: For every accepted order string, `parse_final_order` returns the
(tag, page) pairs in the exact order the tokens appear (each token's
expansion in the position the token occupied), preserving repeats; tags are
matched case-insensitively and normalized to uppercase; a span token
expands in place to one pair per page, ascending after swap-normalization.
In particular `parseOrder("A1,A1,B2") = [(A,1),(A,1),(B,2)]` and
`parseOrder("a1-3,B5") = [(A,1),(A,2),(A,3),(B,5)]`. -/
theorem C2_parse_final_order_properties :
    (∀ s out, parse_final_order s = .ok out →
      ∃ chunks, List.Forall₂ (fun t c => parseOrderToken t = .ok c)
        (tokens s) chunks ∧ out = chunks.flatten) ∧
    (∀ (c : Char) (ds : List Char),
      (c == 'A' || c == 'a' || c == 'B' || c == 'b') = true →
      ¬ds.isEmpty = true → ds.all Char.isDigit = true →
      parseOrderToken (c :: ds) = .ok [(c.toUpper, natOfDigits ds)]) ∧
    (∀ (c : Char) (ds1 ds2 : List Char),
      (c == 'A' || c == 'a' || c == 'B' || c == 'b') = true →
      ¬ds1.isEmpty = true → ds1.all Char.isDigit = true →
      ¬ds2.isEmpty = true → ds2.all Char.isDigit = true →
      parseOrderToken (c :: (ds1 ++ '-' :: ds2)) =
        .ok ((List.range' (min (natOfDigits ds1) (natOfDigits ds2))
          (max (natOfDigits ds1) (natOfDigits ds2) + 1 -
            min (natOfDigits ds1) (natOfDigits ds2))).map
          (fun n => (c.toUpper, n)))) ∧
    parse_final_order ("A1,A1,B2".data) = .ok [('A', 1), ('A', 1), ('B', 2)] ∧
    parse_final_order ("a1-3,B5".data) =
      .ok [('A', 1), ('A', 2), ('A', 3), ('B', 5)] := by
  refine ⟨?_, fun c ds hc h hd => parseOrderToken_single hc h hd,
    fun c ds1 ds2 hc h1 h1d h2 h2d => parseOrderToken_span hc h1 h1d h2 h2d,
    rfl, rfl⟩
  intro s out h
  unfold parse_final_order at h
  cases hc : collectParts parseOrderToken ((pyStrip s).splitOnP isSep) with
  | error e => simp only [hc] at h; cases h
  | ok chunks =>
    simp only [hc] at h
    cases h
    exact ⟨chunks, collectParts_ok_forall₂ _ _ _ hc, rfl⟩

/-- Witness for C2 at concrete inputs: the full string `"A1,A1,B2"`,
a single token `b7` and a span token `a1-3`. -/
theorem C2_parse_final_order_witness :
    (∃ chunks, List.Forall₂ (fun t c => parseOrderToken t = .ok c)
      (tokens ("A1,A1,B2".data)) chunks ∧
      ([('A', 1), ('A', 1), ('B', 2)] : List (Char × Nat)) = chunks.flatten) ∧
    parseOrderToken ('b' :: ['7']) = .ok [('B', 7)] ∧
    parseOrderToken ('a' :: (['1'] ++ '-' :: ['3'])) =
      .ok ((List.range' (min (natOfDigits ['1']) (natOfDigits ['3']))
        (max (natOfDigits ['1']) (natOfDigits ['3']) + 1 -
          min (natOfDigits ['1']) (natOfDigits ['3']))).map
        (fun n => ('a'.toUpper, n))) := by
  have h := C2_parse_final_order_properties
  exact ⟨h.1 _ _ rfl, h.2.1 'b' ['7'] (by decide) (by decide) (by decide),
    h.2.2.1 'a' ['1'] ['3'] (by decide) (by decide) (by decide) (by decide)
      (by decide)⟩

/-- C7: Swap normalization — parsing the span token `s-e` yields the same
pages as parsing `e-s` in both the range parser and the order parser
(reversed spans are swapped, never rejected); in particular
`parseRanges("5-3") = parseRanges("3-5") = [3,4,5]`. -/
theorem C7_swap_normalization :
    (∀ ds1 ds2 : List Char, ¬ds1.isEmpty = true → ds1.all Char.isDigit = true →
      ¬ds2.isEmpty = true → ds2.all Char.isDigit = true →
      parseRangeToken (ds1 ++ '-' :: ds2) = parseRangeToken (ds2 ++ '-' :: ds1)) ∧
    (∀ (c : Char) (ds1 ds2 : List Char),
      (c == 'A' || c == 'a' || c == 'B' || c == 'b') = true →
      ¬ds1.isEmpty = true → ds1.all Char.isDigit = true →
      ¬ds2.isEmpty = true → ds2.all Char.isDigit = true →
      parseOrderToken (c :: (ds1 ++ '-' :: ds2)) =
        parseOrderToken (c :: (ds2 ++ '-' :: ds1))) ∧
    parse_ranges ("5-3".data) = .ok [3, 4, 5] ∧
    parse_ranges ("3-5".data) = .ok [3, 4, 5] := by
  refine ⟨?_, ?_, rfl, rfl⟩
  · intro ds1 ds2 h1 h1d h2 h2d
    rw [parseRangeToken_span h1 h1d h2 h2d, parseRangeToken_span h2 h2d h1 h1d,
      Nat.min_comm, Nat.max_comm]
  · intro c ds1 ds2 hc h1 h1d h2 h2d
    rw [parseOrderToken_span hc h1 h1d h2 h2d,
      parseOrderToken_span hc h2 h2d h1 h1d, Nat.min_comm, Nat.max_comm]

/-- Witness for C7 at the concrete span `5-3` / `3-5`, bare and tagged. -/
theorem C7_swap_normalization_witness :
    parseRangeToken (['5'] ++ '-' :: ['3']) =
      parseRangeToken (['3'] ++ '-' :: ['5']) ∧
    parseOrderToken ('A' :: (['5'] ++ '-' :: ['3'])) =
      parseOrderToken ('A' :: (['3'] ++ '-' :: ['5'])) := by
  have h := C7_swap_normalization
  exact ⟨h.1 ['5'] ['3'] (by decide) (by decide) (by decide) (by decide),
    h.2.1 'A' ['5'] ['3'] (by decide) (by decide) (by decide) (by decide)
      (by decide)⟩

/-- C8 counterexample: the parsers accept page number 0 — `parse_ranges "0"`
returns `[0]` and `parse_final_order "A0"` returns `[(A, 0)]`, so a parse
result can contain a number that is not ≥ 1, contrary to the claim. -/
theorem C8_counterexample :
    parse_ranges ("0".data) = .ok [0] ∧ (0 : Nat) ∈ [0] ∧ ¬(1 ≤ (0 : Nat)) ∧
    parse_final_order ("A0".data) = .ok [('A', 0)] :=
  ⟨rfl, by decide, by decide, rfl⟩

/-- C8 amended: every span accepted by the range parser expands to the
ascending run from `min` to `max` (the `start ≤ end after normalization`
invariant holds), but page numbers are only guaranteed ≥ 0, not ≥ 1 — the
bound ≥ 1 is enforced later, at resolution, which rejects page 0 as out of
range. -/
theorem C8_amended_normalization :
    (∀ t s e, matchSpan t = some (s, e) →
      parseRangeToken t = .ok (List.range' (min s e) (max s e + 1 - min s e)) ∧
      min s e ≤ max s e) ∧
    (∀ pdf_a pdf_b src rest d, sourceDoc pdf_a pdf_b src = some d →
      resolvePages pdf_a pdf_b ((src, 0) :: rest) =
        .error (.pageOutOfRange src 0)) := by
  constructor
  · intro t s e h
    refine ⟨?_, min_le_max⟩
    unfold parseRangeToken
    rw [h]
    simp only [swap_min_max]
  · intro pa pb src rest d h
    unfold resolvePages
    rw [h]
    simp

/-- Witness for the amended C8 at the concrete span token `"5-3"` and a
concrete resolution of page 0. -/
theorem C8_amended_witness :
    parseRangeToken ("5-3".data) =
      .ok (List.range' (min 5 3) (max 5 3 + 1 - min 5 3)) ∧
    min 5 3 ≤ max 5 3 ∧
    resolvePages (some docA5) none [('A', 0)] =
      .error (.pageOutOfRange 'A' 0) := by
  have h := C8_amended_normalization
  have h1 := h.1 ("5-3".data) 5 3 rfl
  exact ⟨h1.1, h1.2, h.2 (some docA5) none 'A' [] docA5 rfl⟩

/-- C10: The order parser accepts only the source tags A and B
(case-insensitively): every pair of a successful parse carries tag 'A' or
'B', any token with a different leading character is rejected with an
invalid-order-token error, and in particular `"C1"` fails. -/
theorem C10_only_AB_tags :
    (∀ s out, parse_final_order s = .ok out → ∀ t ∈ out, t.1 = 'A' ∨ t.1 = 'B') ∧
    (∀ (c : Char) (rest : List Char),
      ¬(c == 'A' || c == 'a' || c == 'B' || c == 'b') = true →
      parseOrderToken (c :: rest) = .error (.invalidOrderToken (c :: rest))) ∧
    parse_final_order ("C1".data) = .error (.invalidOrderToken ("C1".data)) := by
  refine ⟨?_, ?_, rfl⟩
  · intro s out h t ht
    unfold parse_final_order at h
    cases hc : collectParts parseOrderToken ((pyStrip s).splitOnP isSep) with
    | error e => simp only [hc] at h; cases h
    | ok chunks =>
      simp only [hc] at h
      cases h
      rcases List.mem_flatten.1 ht with ⟨chunk, hchunk, hx⟩
      rcases forall₂_exists_left (collectParts_ok_forall₂ _ _ _ hc) chunk hchunk
        with ⟨tok, _, htok⟩
      exact parseOrderToken_tags htok t hx
  · intro c rest hc
    have hm : matchPageToken (c :: rest) = none := by
      simp [matchPageToken, hc]
    unfold parseOrderToken
    rw [hm]

/-- Witness for C10 at the parse of `"A1,B2"` and the rejected token `X1`. -/
theorem C10_only_AB_tags_witness :
    (∀ t ∈ ([('A', 1), ('B', 2)] : List (Char × Nat)), t.1 = 'A' ∨ t.1 = 'B') ∧
    parseOrderToken ('X' :: ['1']) = .error (.invalidOrderToken ('X' :: ['1'])) := by
  have h := C10_only_AB_tags
  exact ⟨h.1 ("A1,B2".data) [('A', 1), ('B', 2)] rfl, h.2.1 'X' ['1'] (by decide)⟩

/-- Two-step list induction matching the stride-2 recursion of `layoutTwoUp`. -/
theorem twoStepInd {α : Type} {motive : List α → Prop} (h0 : motive [])
    (h1 : ∀ p, motive [p])
    (h2 : ∀ p q rest, motive rest → motive (p :: q :: rest)) :
    ∀ l, motive l
  | [] => h0
  | [p] => h1 p
  | p :: q :: rest => h2 p q rest (twoStepInd h0 h1 h2 rest)

/-- The 2-Up layout emits one output page per pair plus one for a leftover. -/
theorem layoutTwoUp_length : ∀ ps : List Page,
    (layoutTwoUp ps).length = (ps.length + 1) / 2 := by
  intro ps
  induction ps using twoStepInd with
  | h0 => rfl
  | h1 p => show (1 : Nat) = (1 + 1) / 2; rfl
  | h2 p q rest ih =>
    simp only [layoutTwoUp, List.length_cons, ih]
    omega

/-- The i-th 2-Up output page composes source pages 2i and 2i+1: width is
the sum of widths, height the max of heights, and both pages merged
untranslated at the origin (pypdf `merge_page` applies no translation). -/
theorem layoutTwoUp_pair : ∀ (ps : List Page) (i : Nat) (p1 p2 : Page),
    ps[2 * i]? = some p1 → ps[2 * i + 1]? = some p2 →
    (layoutTwoUp ps)[i]? = some (.comp (p1.width + p2.width)
      (max p1.height p2.height) [⟨p1, 0, 0⟩, ⟨p2, 0, 0⟩]) := by
  intro ps
  induction ps using twoStepInd with
  | h0 => intro i p1 p2 h1 h2; simp at h1
  | h1 p =>
    intro i p1 p2 h1 h2
    rw [List.getElem?_eq_none (by simp)] at h2
    cases h2
  | h2 p q rest ih =>
    intro i p1 p2 h1 h2
    cases i with
    | zero =>
      simp at h1 h2
      subst h1
      subst h2
      simp [layoutTwoUp, compose2]
    | succ i =>
      have e1 : 2 * (i + 1) = 2 * i + 1 + 1 := by ring
      have e2 : 2 * (i + 1) + 1 = 2 * i + 1 + 1 + 1 := by ring
      rw [e1, List.getElem?_cons_succ, List.getElem?_cons_succ] at h1
      rw [e2, List.getElem?_cons_succ, List.getElem?_cons_succ] at h2
      simp only [layoutTwoUp, List.getElem?_cons_succ]
      exact ih i p1 p2 h1 h2

/-- With an odd page count, the final unpaired page passes through unchanged
as the last output page. -/
theorem layoutTwoUp_odd : ∀ (ps : List Page) (i : Nat) (p1 : Page),
    ps.length = 2 * i + 1 → ps[2 * i]? = some p1 →
    (layoutTwoUp ps)[i]? = some (.pass p1) := by
  intro ps
  induction ps using twoStepInd with
  | h0 => intro i p1 hl h1; simp at hl
  | h1 p =>
    intro i p1 hl h1
    have hi : i = 0 := by simp at hl; omega
    subst hi
    simp at h1
    subst h1
    rfl
  | h2 p q rest ih =>
    intro i p1 hl h1
    cases i with
    | zero => simp at hl
    | succ i =>
      have hl' : rest.length = 2 * i + 1 := by simp at hl; omega
      have e1 : 2 * (i + 1) = 2 * i + 1 + 1 := by ring
      rw [e1, List.getElem?_cons_succ, List.getElem?_cons_succ] at h1
      simp only [layoutTwoUp, List.getElem?_cons_succ]
      exact ih i p1 hl' h1

/-- C1 (code bug): the claim says each pair's second page is merged at
offset (width p1, 0).  The source instead calls
`new_page.merge_page(p2, (p1_width, 0))`, and pypdf's
`merge_page(page2, expand, over)` takes no translation — the tuple binds to
the truthy `expand` flag and p2 is merged untranslated at (0, 0),
overlapping p1.  Evaluating the 2-Up build at the claim's own example (4
pages of 100×200, order `A1-4`): the composed pages do have the claimed
200×200 dimensions and pairing, but the second page of each pair lands at
offset (0, 0), which differs from the claimed offset (width p1, 0) = (100, 0). -/
theorem C1_twoUp_merge_bug :
    build_pdf_from_order (some docQuad) none ("A1-4".data) .twoUp
      ("x.pdf".data) =
      .output [.comp 200 200 [⟨⟨100, 200, 1⟩, 0, 0⟩, ⟨⟨100, 200, 2⟩, 0, 0⟩],
               .comp 200 200 [⟨⟨100, 200, 3⟩, 0, 0⟩, ⟨⟨100, 200, 4⟩, 0, 0⟩]]
        ("x.pdf".data) ∧
    ((0 : ℚ) ≠ (⟨100, 200, 1⟩ : Page).width) := by
  constructor
  · show BuildResult.output
      (layoutTwoUp [⟨100, 200, 1⟩, ⟨100, 200, 2⟩, ⟨100, 200, 3⟩, ⟨100, 200, 4⟩])
      ("x.pdf".data) = _
    norm_num [layoutTwoUp, compose2]
  · norm_num

/-- A successful resolution relates each token to the 1-based page of its
source document, positionally. -/
theorem resolvePages_ok_forall₂ (pa pb : Option (List Page)) :
    ∀ (spec : List (Char × Nat)) (ps : List Page),
      resolvePages pa pb spec = .ok ps → List.Forall₂ (refersTo pa pb) spec ps := by
  intro spec
  induction spec with
  | nil =>
    intro ps h
    simp [resolvePages] at h
    subst h
    exact List.Forall₂.nil
  | cons t rest ih =>
    obtain ⟨src, page⟩ := t
    intro ps h
    unfold resolvePages at h
    cases hd : sourceDoc pa pb src with
    | none => simp only [hd] at h; cases h
    | some d =>
      simp only [hd] at h
      split at h
      · rename_i hcond
        cases hrest : resolvePages pa pb rest with
        | error e => simp only [hrest] at h; cases h
        | ok qs =>
          simp only [hrest] at h
          cases h
          refine List.Forall₂.cons ?_ (ih qs hrest)
          exact ⟨d, hd, ⟨by omega, rfl⟩⟩
      · cases h

/-- Resolution raises at the first failing token, with the error kind that
token determines (missing source checked before the page bound). -/
theorem resolvePages_first_error (pa pb : Option (List Page)) :
    ∀ (pre : List (Char × Nat)) (t : Char × Nat) (rest : List (Char × Nat)),
      (∀ u ∈ pre, tokOk pa pb u = true) → tokOk pa pb t = false →
      resolvePages pa pb (pre ++ t :: rest) = .error (tokErr pa pb t) := by
  intro pre
  induction pre with
  | nil =>
    intro t rest hpre hbad
    obtain ⟨src, page⟩ := t
    simp only [List.nil_append]
    unfold resolvePages
    cases hd : sourceDoc pa pb src with
    | none => simp [tokErr, hd]
    | some d =>
      have hnot : ¬(0 < page ∧ page ≤ d.length) := by
        simp [tokOk, hd] at hbad
        omega
      simp only [hd]
      rw [dif_neg hnot]
      simp [tokErr, hd]
  | cons t' pre' ih =>
    intro t rest hpre hbad
    obtain ⟨src, page⟩ := t'
    have hok : tokOk pa pb (src, page) = true := hpre _ (by simp)
    simp only [List.cons_append]
    unfold resolvePages
    cases hd : sourceDoc pa pb src with
    | none => simp [tokOk, hd] at hok
    | some d =>
      have hcond : 0 < page ∧ page ≤ d.length := by
        simpa [tokOk, hd] using hok
      simp only [hd]
      rw [dif_pos hcond, ih t rest (fun x hx => hpre x (by simp [hx])) hbad]

/-- On success every token passed the per-token check. -/
theorem resolvePages_ok_tokOk (pa pb : Option (List Page)) :
    ∀ (spec : List (Char × Nat)) (ps : List Page),
      resolvePages pa pb spec = .ok ps → ∀ t ∈ spec, tokOk pa pb t = true := by
  intro spec
  induction spec with
  | nil => intro ps h t ht; cases ht
  | cons u rest ih =>
    obtain ⟨src, page⟩ := u
    intro ps h t ht
    unfold resolvePages at h
    cases hd : sourceDoc pa pb src with
    | none => simp only [hd] at h; cases h
    | some d =>
      simp only [hd] at h
      split at h
      · rename_i hcond
        rcases List.mem_cons.1 ht with rfl | ht'
        · simpa [tokOk, hd] using hcond
        · cases hrest : resolvePages pa pb rest with
          | error e => simp only [hrest] at h; cases h
          | ok qs => exact ih qs hrest t ht'
      · cases h

/-- C4: Resolving the token sequence fails at the first failing token —
with a missing-source error when the token's tag has no uploaded document
(checked first), and a page-out-of-range error when its page is not in
[1, pageCount]; on success every referenced page lies within its source's
page count. -/
theorem C4_resolution_errors :
    ∀ (pdf_a pdf_b : Option (List Page)) (spec : List (Char × Nat)),
      (∀ pre t rest, spec = pre ++ t :: rest →
        (∀ u ∈ pre, tokOk pdf_a pdf_b u = true) → tokOk pdf_a pdf_b t = false →
        resolvePages pdf_a pdf_b spec = .error (tokErr pdf_a pdf_b t)) ∧
      (∀ t, sourceDoc pdf_a pdf_b t.1 = none →
        tokErr pdf_a pdf_b t = .missingSource t.1) ∧
      (∀ t d, sourceDoc pdf_a pdf_b t.1 = some d →
        tokErr pdf_a pdf_b t = .pageOutOfRange t.1 t.2) ∧
      (∀ ps, resolvePages pdf_a pdf_b spec = .ok ps →
        ∀ t ∈ spec, tokOk pdf_a pdf_b t = true) := by
  intro pa pb spec
  refine ⟨?_, ?_, ?_, fun ps h => resolvePages_ok_tokOk pa pb spec ps h⟩
  · intro pre t rest hs hpre hbad
    rw [hs]
    exact resolvePages_first_error pa pb pre t rest hpre hbad
  · intro t hd
    simp [tokErr, hd]
  · intro t d hd
    simp [tokErr, hd]

/-- Witness for C4: with only document A uploaded, `[A1, B2, A9]` fails at
`B2` with the missing-source error; the error kinds and the success-side
check evaluated on concrete tokens. -/
theorem C4_resolution_witness :
    resolvePages (some docA5) none [('A', 1), ('B', 2), ('A', 9)] =
      .error (tokErr (some docA5) none ('B', 2)) ∧
    tokErr (some docA5) none ('B', 2) = .missingSource 'B' ∧
    tokErr (some docA5) none ('A', 9) = .pageOutOfRange 'A' 9 ∧
    (∀ t ∈ ([('A', 1), ('A', 5)] : List (Char × Nat)),
      tokOk (some docA5) none t = true) := by
  have h := C4_resolution_errors (some docA5) none [('A', 1), ('B', 2), ('A', 9)]
  have h2 := C4_resolution_errors (some docA5) none [('A', 1), ('A', 5)]
  refine ⟨h.1 [('A', 1)] ('B', 2) [('A', 9)] rfl ?_ rfl,
    h.2.1 ('B', 2) rfl, h.2.2.1 ('A', 9) docA5 rfl,
    h2.2.2.2 [⟨10, 20, 1⟩, ⟨10, 20, 5⟩] rfl⟩
  intro u hu
  simp only [List.mem_singleton] at hu
  subst hu
  rfl

/-- C5: In Sequential mode a successful build emits exactly one output page
per resolved token, in the order of the token sequence, with no reordering
or deduplication; with 5-page sources A and B, `"A1-2,B3"` produces the
3-page output [A-page1, A-page2, B-page3]. -/
theorem C5_sequential_order :
    (∀ pdf_a pdf_b order name out fn,
      build_pdf_from_order pdf_a pdf_b order .sequential name = .output out fn →
      ∃ spec pages, parse_final_order order = .ok spec ∧
        resolvePages pdf_a pdf_b spec = .ok pages ∧
        List.Forall₂ (refersTo pdf_a pdf_b) spec pages ∧
        out = pages.map OutputPage.pass ∧ out.length = spec.length) ∧
    build_pdf_from_order (some docA5) (some docB5) ("A1-2,B3".data) .sequential
      ("out.pdf".data) =
      .output [.pass ⟨10, 20, 1⟩, .pass ⟨10, 20, 2⟩, .pass ⟨30, 40, 13⟩]
        ("out.pdf".data) := by
  constructor
  · intro pa pb order name out fn h
    unfold build_pdf_from_order at h
    by_cases he : (pyStrip order).isEmpty
    · simp [he] at h
    · simp only [he, Bool.false_eq_true, if_false] at h
      cases hp : parse_final_order order with
      | error e => simp only [hp] at h; cases h
      | ok spec =>
        simp only [hp] at h
        cases hr : resolvePages pa pb spec with
        | error e => simp only [hr] at h; cases h
        | ok pages =>
          simp only [hr] at h
          by_cases hemp : pages.isEmpty
          · simp [hemp] at h
          · simp only [hemp, Bool.false_eq_true, if_false] at h
            cases h
            have hf := resolvePages_ok_forall₂ pa pb spec pages hr
            exact ⟨spec, pages, rfl, hr, hf, rfl, by simp [hf.length_eq]⟩
  · rfl

/-- Witness for C5 instantiating the inversion at the concrete end-to-end
build of `"A1-2,B3"`. -/
theorem C5_sequential_witness :
    ∃ spec pages, parse_final_order ("A1-2,B3".data) = .ok spec ∧
      resolvePages (some docA5) (some docB5) spec = .ok pages ∧
      List.Forall₂ (refersTo (some docA5) (some docB5)) spec pages ∧
      ([.pass ⟨10, 20, 1⟩, .pass ⟨10, 20, 2⟩, .pass ⟨30, 40, 13⟩] :
        List OutputPage) = pages.map OutputPage.pass ∧
      ([.pass ⟨10, 20, 1⟩, .pass ⟨10, 20, 2⟩, .pass ⟨30, 40, 13⟩] :
        List OutputPage).length = spec.length :=
  C5_sequential_order.1 (some docA5) (some docB5) ("A1-2,B3".data)
    ("out.pdf".data)
    [.pass ⟨10, 20, 1⟩, .pass ⟨10, 20, 2⟩, .pass ⟨30, 40, 13⟩]
    ("out.pdf".data) rfl

/-- C6: When the parsed order produces no pages, the build reports the
empty-output condition (the source's `gr.Warning` + `return None` branch)
as an outcome distinguishable from every error and from producing a
document. -/
theorem C6_empty_output :
    (∀ pdf_a pdf_b order layout name, ¬(pyStrip order).isEmpty = true →
      parse_final_order order = .ok [] →
      build_pdf_from_order pdf_a pdf_b order layout name = .emptyOutput) ∧
    build_pdf_from_order none none (",".data) .sequential ("x".data) =
      .emptyOutput ∧
    (∀ e, BuildResult.emptyOutput ≠ .err e) ∧
    (∀ pages fn, BuildResult.emptyOutput ≠ .output pages fn) := by
  refine ⟨?_, rfl, fun e h => BuildResult.noConfusion h,
    fun pages fn h => BuildResult.noConfusion h⟩
  intro pa pb order layout name he hp
  unfold build_pdf_from_order
  rw [if_neg he, hp]
  rfl

/-- Witness for C6 at the concrete order string `";"` in 2-Up mode. -/
theorem C6_empty_output_witness :
    build_pdf_from_order (some docA5) none (";".data) .twoUp ("y".data) =
      .emptyOutput :=
  C6_empty_output.1 (some docA5) none (";".data) .twoUp ("y".data)
    (by decide) rfl

/-- C9 counterexample: the build does not use the caller-supplied output
name as given — for the name `"merged"` it writes under `"merged.pdf"`,
appending the extension itself rather than leaving that to the UI layer. -/
theorem C9_counterexample :
    build_pdf_from_order (some docA5) none ("A1".data) .sequential
      ("merged".data) =
      .output [.pass ⟨10, 20, 1⟩] ("merged.pdf".data) ∧
    ("merged.pdf".data : List Char) ≠ ("merged".data : List Char) :=
  ⟨rfl, by decide⟩

/-- C9 amended: the build itself normalizes the output name — a name whose
lowercase form already ends in ".pdf" is used as given, any other name gets
".pdf" appended by the core, not by the external CLI/UI layer. -/
theorem C9_amended_extension :
    ∀ pdf_a pdf_b order layout name out fn,
      build_pdf_from_order pdf_a pdf_b order layout name = .output out fn →
      fn = withPdfExt name ∧
      (endsWithPdf (pyLower name) = true → fn = name) ∧
      (endsWithPdf (pyLower name) = false → fn = name ++ ['.', 'p', 'd', 'f']) := by
  intro pa pb order layout name out fn h
  unfold build_pdf_from_order at h
  by_cases he : (pyStrip order).isEmpty
  · simp [he] at h
  · simp only [he, Bool.false_eq_true, if_false] at h
    cases hp : parse_final_order order with
    | error e => simp only [hp] at h; cases h
    | ok spec =>
      simp only [hp] at h
      cases hr : resolvePages pa pb spec with
      | error e => simp only [hr] at h; cases h
      | ok pages =>
        simp only [hr] at h
        by_cases hemp : pages.isEmpty
        · simp [hemp] at h
        · simp only [hemp, Bool.false_eq_true, if_false] at h
          cases h
          refine ⟨rfl, ?_, ?_⟩
          · intro hend
            simp [withPdfExt, hend]
          · intro hend
            simp [withPdfExt, hend]

/-- Witness for the amended C9 at the concrete build with name `"merged"`. -/
theorem C9_amended_witness :
    (("merged.pdf".data : List Char) = withPdfExt ("merged".data)) ∧
    (endsWithPdf (pyLower ("merged".data)) = false →
      ("merged.pdf".data : List Char) = "merged".data ++ ['.', 'p', 'd', 'f']) := by
  have h := C9_amended_extension (some docA5) none ("A1".data) .sequential
    ("merged".data) [.pass ⟨10, 20, 1⟩] ("merged.pdf".data) rfl
  exact ⟨h.1, h.2.2⟩

end PdfMerge
